import Mathlib

/-!
Shallow embedding of the syslog parser in `src/journald-syslog.go`
(`ParseSyslog`, lines 37-112) together with the Go library routines it
calls (`strings.IndexRune`, `strings.SplitN`, `strings.Join`,
`strconv.Atoi`, `time.Parse` for the layouts `RFC3339Nano`, `RFC3339`
and `Stamp`, and `Time.String`).

Strings are modelled as `List Char`; the program only ever treats the
buffer byte-wise, and on ASCII input Go's byte indexing coincides with
character indexing.  A Go runtime panic (index out of range, slice
bounds out of range) is modelled by the value `none`: a run of
`ParseSyslog` either returns `some` message or panics.
-/

/-- Value of an ASCII decimal digit, `none` for any other character. -/
def decDigit? (c : Char) : Option Nat :=
  if '0' ≤ c ∧ c ≤ '9' then some (c.toNat - '0'.toNat) else none

/-- Accumulating decimal reader: fails on the first non-digit. -/
def digitsValAux : Nat → List Char → Option Nat
  | acc, [] => some acc
  | acc, c :: cs =>
    match decDigit? c with
    | some d => digitsValAux (acc * 10 + d) cs
    | none => none

/-- Decimal value of a nonempty all-digit string. -/
def digitsVal (s : List Char) : Option Nat :=
  match s with
  | [] => none
  | c :: cs => digitsValAux 0 (c :: cs)

/-- Model of Go `strconv.Atoi`: optional sign, then one or more digits.
The call site in `ParseSyslog` passes at most three characters, so the
64-bit overflow behaviour of `Atoi` is unreachable and not modelled. -/
def atoi (s : List Char) : Option Int :=
  match s with
  | [] => none
  | c :: cs =>
    if c = '+' then (digitsVal cs).map (fun n => (n : Int))
    else if c = '-' then (digitsVal cs).map (fun n => -(n : Int))
    else (digitsVal (c :: cs)).map (fun n => (n : Int))

/-- Model of Go `strings.IndexRune` for single-byte runes: index of the
first occurrence, with `none` standing for Go's `-1`. -/
def indexRune : List Char → Char → Option Nat
  | [], _ => none
  | c :: cs, r => if c = r then some 0 else (indexRune cs r).map (fun i => i + 1)

/-- Model of Go `strings.SplitN s sep n` for a one-character separator
and positive `n`: split around the first `n-1` occurrences, the last
part keeps the rest unsplit; the empty string yields `[""]`. -/
def splitN : List Char → Char → Nat → List (List Char)
  | _, _, 0 => []
  | s, _, 1 => [s]
  | s, sep, n + 2 =>
    match indexRune s sep with
    | none => [s]
    | some i => s.take i :: splitN (s.drop (i + 1)) sep (n + 1)

/-- Model of Go `strings.Join parts " "`. -/
def joinSpace : List (List Char) → List Char
  | [] => []
  | [p] => p
  | p :: ps => p ++ ' ' :: joinSpace ps

/-- Model of a parsed Go `time.Time` as far as this program observes one:
the broken-down fields, the zone offset in minutes, and whether the zone
is the named UTC location. -/
structure GoTime where
  year : Int
  month : Nat
  day : Nat
  hour : Nat
  minute : Nat
  second : Nat
  nsec : Nat
  offsetMin : Int
  zoneUTC : Bool
deriving Repr, DecidableEq

/-- Gregorian leap-year rule used by Go's day-of-month range check. -/
def isLeap (y : Int) : Bool := y % 4 == 0 && (y % 100 != 0 || y % 400 == 0)

/-- Days in a month, for Go's `day out of range` check. -/
def daysIn (y : Int) (m : Nat) : Nat :=
  if m = 2 then (if isLeap y then 29 else 28)
  else if m = 4 ∨ m = 6 ∨ m = 9 ∨ m = 11 then 30
  else 31

/-- Fixed two-digit numeric element of a Go time layout. -/
def num2 : List Char → Option (Nat × List Char)
  | a :: b :: rest =>
    match decDigit? a, decDigit? b with
    | some x, some y => some (x * 10 + y, rest)
    | _, _ => none
  | _ => none

/-- Fixed four-digit numeric element (`2006`, the long year). -/
def num4 : List Char → Option (Nat × List Char)
  | a :: b :: c :: d :: rest =>
    match decDigit? a, decDigit? b, decDigit? c, decDigit? d with
    | some x, some y, some z, some w =>
      some (((x * 10 + y) * 10 + z) * 10 + w, rest)
    | _, _, _, _ => none
  | _ => none

/-- Literal layout character. -/
def lit (c : Char) : List Char → Option (List Char)
  | x :: rest => if x = c then some rest else none
  | [] => none

/-- Nanoseconds denoted by a fraction digit run: Go keeps at most nine
digits and scales them to nanoseconds. -/
def nsecOfDigits (ds : List Char) : Nat :=
  (digitsValAux 0 (ds.take 9)).getD 0 * 10 ^ (9 - (ds.take 9).length)

/-- Optional fractional-second field after the seconds element.  Go
permits it when parsing even when the layout omits it: a `.` or `,`
followed by at least one digit; the maximal digit run is consumed. -/
def parseFrac (s : List Char) : Nat × List Char :=
  match s with
  | c :: d :: rest =>
    if (c = '.' ∨ c = ',') ∧ (decDigit? d).isSome then
      (nsecOfDigits ((d :: rest).takeWhile (fun x => (decDigit? x).isSome)),
       (d :: rest).dropWhile (fun x => (decDigit? x).isSome))
    else (0, s)
  | _ => (0, s)

/-- Zone element `Z07:00`: `Z` (the UTC location) or `±hh:mm`.  Go
performs no range check on the offset digits. -/
def parseZone (s : List Char) : Option (Int × Bool × List Char) :=
  match s with
  | [] => none
  | c :: rest =>
    if c = 'Z' then some (0, true, rest)
    else if c = '+' ∨ c = '-' then
      match num2 rest with
      | some (hh, r1) =>
        match lit ':' r1 with
        | some r2 =>
          match num2 r2 with
          | some (mm, r3) =>
            some ((if c = '-' then -((hh * 60 + mm : Nat) : Int)
                   else ((hh * 60 + mm : Nat) : Int)), false, r3)
          | none => none
        | none => none
      | none => none
    else none

/-- Acceptor for Go `time.Parse` with the layout `time.RFC3339` or
`time.RFC3339Nano`.  When parsing, the two layouts accept exactly the
same strings (the fractional second after the seconds element is
optional under both), so a single definition serves both. -/
def rfc3339Core (s : List Char) : Option GoTime := do
  let (y, s) ← num4 s
  let s ← lit '-' s
  let (mo, s) ← num2 s
  let s ← lit '-' s
  let (d, s) ← num2 s
  let s ← lit 'T' s
  let (hh, s) ← num2 s
  let s ← lit ':' s
  let (mi, s) ← num2 s
  let s ← lit ':' s
  let (ss, s) ← num2 s
  let (ns, s) := parseFrac s
  let (offMin, isUTC, s) ← parseZone s
  if s = [] ∧ 1 ≤ mo ∧ mo ≤ 12 ∧ 1 ≤ d ∧ d ≤ daysIn (y : Int) mo ∧
     hh ≤ 23 ∧ mi ≤ 59 ∧ ss ≤ 59 then
    some { year := (y : Int), month := mo, day := d, hour := hh,
           minute := mi, second := ss, nsec := ns,
           offsetMin := offMin, zoneUTC := isUTC }
  else none

/-- Go `time.Parse(time.RFC3339Nano, ·)` as an acceptor. -/
def goParseRFC3339Nano (s : List Char) : Option GoTime := rfc3339Core s

/-- Go `time.Parse(time.RFC3339, ·)` as an acceptor. -/
def goParseRFC3339 (s : List Char) : Option GoTime := rfc3339Core s

/-- The timestamp attempt at lines 67-70: `RFC3339Nano` first, then
`RFC3339` on failure. -/
def goParseTimestamp (s : List Char) : Option GoTime :=
  match goParseRFC3339Nano s with
  | some t => some t
  | none => goParseRFC3339 s

/-- Case-insensitive three-letter month name, as in Go's month lookup. -/
def monthName3 (a b c : Char) : Option Nat :=
  let k := [a.toLower, b.toLower, c.toLower]
  if k = ['j', 'a', 'n'] then some 1
  else if k = ['f', 'e', 'b'] then some 2
  else if k = ['m', 'a', 'r'] then some 3
  else if k = ['a', 'p', 'r'] then some 4
  else if k = ['m', 'a', 'y'] then some 5
  else if k = ['j', 'u', 'n'] then some 6
  else if k = ['j', 'u', 'l'] then some 7
  else if k = ['a', 'u', 'g'] then some 8
  else if k = ['s', 'e', 'p'] then some 9
  else if k = ['o', 'c', 't'] then some 10
  else if k = ['n', 'o', 'v'] then some 11
  else if k = ['d', 'e', 'c'] then some 12
  else none

/-- Day element `_2` of the `Stamp` layout: an optional leading space,
then one or two digits. -/
def underDay (s : List Char) : Option (Nat × List Char) :=
  let s1 := match s with
    | ' ' :: r => r
    | _ => s
  match s1 with
  | a :: rest =>
    match decDigit? a with
    | some d =>
      match rest with
      | b :: rest2 =>
        match decDigit? b with
        | some d2 => some (d * 10 + d2, rest2)
        | none => some (d, rest)
      | [] => some (d, [])
    | none => none
  | [] => none

/-- Acceptor for Go `time.Parse` with layout `time.Stamp`
(`Jan _2 15:04:05`): the year keeps its zero value and the zone is
UTC. -/
def stampParse (s : List Char) : Option GoTime := do
  let (mo, s) ← (match s with
    | a :: b :: c :: rest => (monthName3 a b c).map (fun m => (m, rest))
    | _ => none)
  let s ← lit ' ' s
  let (d, s) ← underDay s
  let s ← lit ' ' s
  let (hh, s) ← num2 s
  let s ← lit ':' s
  let (mi, s) ← num2 s
  let s ← lit ':' s
  let (ss, s) ← num2 s
  let (ns, s) := parseFrac s
  if s = [] ∧ 1 ≤ d ∧ d ≤ daysIn 0 mo ∧ hh ≤ 23 ∧ mi ≤ 59 ∧ ss ≤ 59 then
    some { year := 0, month := mo, day := d, hour := hh, minute := mi,
           second := ss, nsec := ns, offsetMin := 0, zoneUTC := true }
  else none

/-- Decimal digits of a natural number (general-purpose rendering). -/
def natToCharsAux : Nat → Nat → List Char → List Char
  | 0, _, acc => acc
  | fuel + 1, n, acc =>
    if n < 10 then Nat.digitChar n :: acc
    else natToCharsAux fuel (n / 10) (Nat.digitChar (n % 10) :: acc)

/-- Decimal rendering of a natural number. -/
def natToChars (n : Nat) : List Char := natToCharsAux (n + 1) n []

/-- Zero-padding to a given width. -/
def padTo (w : Nat) (s : List Char) : List Char :=
  List.replicate (w - s.length) '0' ++ s

/-- Two-digit zero-padded rendering. -/
def pad2 (n : Nat) : List Char := padTo 2 (natToChars n)

/-- Fraction rendering of Go's `.999999999` verb: nine digits with the
trailing zeros trimmed, nothing when the nanoseconds are zero. -/
def fracChars (ns : Nat) : List Char :=
  if ns = 0 then []
  else '.' :: ((padTo 9 (natToChars ns)).reverse.dropWhile (fun c => c = '0')).reverse

/-- Numeric zone rendering `±hhmm` of Go's `-0700` verb. -/
def offsetChars (m : Int) : List Char :=
  (if m < 0 then ['-'] else ['+']) ++ pad2 (m.natAbs / 60) ++ pad2 (m.natAbs % 60)

/-- Model of Go `Time.String()` (layout
`2006-01-02 15:04:05.999999999 -0700 MST`); for a zone without a name Go
prints the numeric offset in the `MST` slot. -/
def goTimeString (t : GoTime) : List Char :=
  padTo 4 (natToChars t.year.toNat) ++ '-' :: pad2 t.month ++ '-' :: pad2 t.day
    ++ ' ' :: pad2 t.hour ++ ':' :: pad2 t.minute ++ ':' :: pad2 t.second
    ++ fracChars t.nsec
    ++ ' ' :: offsetChars t.offsetMin
    ++ ' ' :: (if t.zoneUTC then ['U', 'T', 'C'] else offsetChars t.offsetMin)

/-- Translation of the `SyslogMessage` struct (strings as `List Char`). -/
structure SyslogMessage where
  Version : Int
  Facility : Int
  Severity : Int
  Timestamp : List Char
  Hostname : List Char
  Tag : List Char
  StructuredData : List Char
  Message : List Char
  Source : List Char
deriving Repr, DecidableEq

/-- Go `pri >> 3` on a (possibly negative) `int`: arithmetic shift,
that is floor division by 8. -/
def goShr3 (p : Int) : Int := Int.fdiv p 8

/-- Go `pri & 7` on a two's-complement `int`: the nonnegative residue
modulo 8. -/
def goAnd7 (p : Int) : Int := Int.emod p 8

/-- The record literal at lines 39-46: relay defaults.  The value of
`time.Now().UTC().String()` is passed in as `clock`. -/
def initMsg (source clock : List Char) : SyslogMessage :=
  { Version := 0, Facility := 0, Severity := 5, Timestamp := clock,
    Hostname := source, Tag := [], StructuredData := [], Message := [],
    Source := source }

/-- Structured-data block, lines 84-90: runs after a successful
structured timestamp.  `none` models the panic of `rest[0]` on an empty
remainder and of `rest[sdEnd+2:]` when nothing follows the bracket. -/
def SD_stage (msg : SyslogMessage) (rest : List Char) :
    Option (SyslogMessage × List Char) :=
  match rest with
  | [] => none
  | c :: t =>
    if c = '[' then
      match indexRune (c :: t) ']' with
      | some sdEnd =>
        if 1 < sdEnd then
          if sdEnd + 2 ≤ (c :: t).length then
            some ({ msg with StructuredData := (c :: t).take sdEnd },
                  (c :: t).drop (sdEnd + 2))
          else none
        else some (msg, c :: t)
      | none => some (msg, c :: t)
    else some (msg, c :: t)

/-- Structured (version 1) grammar, lines 64-91: timestamp token up to
the next space, tried against both RFC3339 layouts; on success the
5-way split assigns HOSTNAME and the three TAG fields, and the
structured-data block runs on whatever remains. -/
def structuredStage (msg : SyslogMessage) (rest : List Char) :
    Option (SyslogMessage × List Char) :=
  match indexRune rest ' ' with
  | none => some (msg, rest)
  | some tsEnd =>
    match goParseTimestamp (rest.take tsEnd) with
    | none => some (msg, rest)
    | some ts =>
      match splitN (rest.drop (tsEnd + 1)) ' ' 5 with
      | [p0, p1, p2, p3, p4] =>
        SD_stage { msg with
                   Timestamp := goTimeString ts
                   Hostname := p0
                   Tag := joinSpace [p1, p2, p3] } p4
      | _ =>
        SD_stage { msg with Timestamp := goTimeString ts }
          (rest.drop (tsEnd + 1))

/-- Legacy grammar, lines 93-106: the first fifteen characters as a
`Stamp` timestamp, then a 3-way split.  `none` models the panics of
`rest[:15]` on a short remainder and of `rest[16:]` when the stamp is
the entire remainder. -/
def legacyStage (msg : SyslogMessage) (rest : List Char) :
    Option (SyslogMessage × List Char) :=
  if 15 ≤ rest.length then
    match stampParse (rest.take 15) with
    | none => some (msg, rest)
    | some ts =>
      if 16 ≤ rest.length then
        match splitN (rest.drop 16) ' ' 3 with
        | [p0, p1, p2] =>
          some ({ msg with
                  Timestamp := goTimeString ts
                  Hostname := p0
                  Tag := p1 }, p2)
        | _ => some ({ msg with Timestamp := goTimeString ts }, rest.drop 16)
      else none
  else none

/-- Version dispatch and the two grammars, lines 59-106.  `none` models
the panic of `rest[0]` on an empty remainder and of `rest[2:]` when only
the version character remains. -/
def afterPri (msg : SyslogMessage) (rest : List Char) :
    Option (SyslogMessage × List Char) :=
  match rest with
  | [] => none
  | c :: t =>
    if c = '1' then
      match t with
      | [] => none
      | _ :: t2 => structuredStage { msg with Version := 1 } t2
    else legacyStage msg (c :: t)

/-- Translation of `ParseSyslog` (lines 37-112).  A `some` result is the
returned `SyslogMessage`; `none` is a runtime panic.  `clock` is the
string value of `time.Now().UTC().String()`, read once at entry. -/
def ParseSyslog (buf source clock : List Char) : Option SyslogMessage :=
  let msg := initMsg source clock
  let step : Option (SyslogMessage × List Char) :=
    match buf with
    | [] => none
    | c0 :: _ =>
      if c0 = '<' then
        match indexRune buf '>' with
        | some priEnd =>
          if 1 < priEnd ∧ priEnd < 5 then
            match atoi ((buf.take priEnd).drop 1) with
            | some pri =>
              afterPri { msg with Facility := goShr3 pri, Severity := goAnd7 pri }
                (buf.drop (priEnd + 1))
            | none => some (msg, buf)
          else some (msg, buf)
        | none => some (msg, buf)
      else some (msg, buf)
  step.map (fun q => { q.1 with Message := q.2 })

/-- Number of times one run of `ParseSyslog` reads the injected clock:
the single `time.Now()` call at line 43 sits inside the record literal
that is evaluated unconditionally at function entry, before any
branching, so every run reads the clock exactly once. -/
def parseSyslogClockReads (_buf _source : List Char) : Nat := 1

/-- Decimal rendering of a PRI value up to 999 (one to three digits),
used to state the claims that quantify over a PRI written in decimal. -/
def decimalChars (p : Nat) : List Char :=
  if p < 10 then [Nat.digitChar p]
  else if p < 100 then [Nat.digitChar (p / 10), Nat.digitChar (p % 10)]
  else [Nat.digitChar (p / 100), Nat.digitChar (p / 10 % 10), Nat.digitChar (p % 10)]

/-! ### Arithmetic and digit lemmas -/

theorem decDigit_digitChar {d : Nat} (h : d ≤ 9) :
    decDigit? (Nat.digitChar d) = some d := by
  interval_cases d <;> decide

theorem digitChar_ne {d : Nat} (h : d ≤ 9) :
    Nat.digitChar d ≠ '>' ∧ Nat.digitChar d ≠ '+' ∧ Nat.digitChar d ≠ '-' := by
  interval_cases d <;> decide

theorem decimalChars_all_digits {p : Nat} (hp : p ≤ 999) :
    ∀ c ∈ decimalChars p, ∃ d, d ≤ 9 ∧ c = Nat.digitChar d := by
  intro c hc
  unfold decimalChars at hc
  split at hc
  · simp at hc
    exact ⟨p, by omega, hc⟩
  · split at hc
    · simp at hc
      rcases hc with h | h
      · exact ⟨p / 10, by omega, h⟩
      · exact ⟨p % 10, by omega, h⟩
    · simp at hc
      rcases hc with h | h | h
      · exact ⟨p / 100, by omega, h⟩
      · exact ⟨p / 10 % 10, by omega, h⟩
      · exact ⟨p % 10, by omega, h⟩

theorem decimalChars_length (p : Nat) :
    1 ≤ (decimalChars p).length ∧ (decimalChars p).length ≤ 3 := by
  unfold decimalChars
  split
  · simp
  · split <;> simp

theorem atoi_decimalChars {p : Nat} (hp : p ≤ 999) :
    atoi (decimalChars p) = some (p : Int) := by
  unfold decimalChars
  split
  · have h9 : p ≤ 9 := by omega
    have hne := digitChar_ne h9
    simp [atoi, hne.2.1, hne.2.2, digitsVal, digitsValAux, decDigit_digitChar h9]
  · split
    · have h1 : p / 10 ≤ 9 := by omega
      have h2 : p % 10 ≤ 9 := by omega
      have hne := digitChar_ne h1
      simp [atoi, hne.2.1, hne.2.2, digitsVal, digitsValAux,
            decDigit_digitChar h1, decDigit_digitChar h2]
      omega
    · have h1 : p / 100 ≤ 9 := by omega
      have h2 : p / 10 % 10 ≤ 9 := by omega
      have h3 : p % 10 ≤ 9 := by omega
      have hne := digitChar_ne h1
      simp [atoi, hne.2.1, hne.2.2, digitsVal, digitsValAux,
            decDigit_digitChar h1, decDigit_digitChar h2, decDigit_digitChar h3]
      omega

/-! ### IndexRune lemmas -/

theorem indexRune_append_not (r : Char) :
    ∀ ds s, (∀ c ∈ ds, c ≠ r) → indexRune (ds ++ r :: s) r = some ds.length := by
  intro ds
  induction ds with
  | nil => intro s _; simp [indexRune]
  | cons c cs ih =>
    intro s hall
    have hc : c ≠ r := hall c (by simp)
    have hih := ih s (fun x hx => hall x (by simp [hx]))
    simp only [List.cons_append, indexRune, if_neg hc]
    rw [show cs.append (r :: s) = cs ++ r :: s from rfl, hih]
    rfl

/-! ### Append bookkeeping -/

theorem drop_append_len_succ (l : List Char) (x : Char) (t : List Char) :
    (l ++ x :: t).drop (l.length + 1) = t := by
  have h1 : l ++ x :: t = (l ++ [x]) ++ t := by simp
  have h2 : l.length + 1 = (l ++ [x]).length := by simp
  rw [h1, h2, List.drop_left]

theorem take_append_cons (l : List Char) (x : Char) (t : List Char) :
    (l ++ x :: t).take l.length = l := by
  have h1 : l ++ x :: t = (l ++ [x]) ++ t := by simp
  rw [h1]
  rw [List.take_append_of_le_length (by simp)]
  simp [List.take_left]

/-! ### Reduction of `ParseSyslog` on a well-formed PRI prefix -/

theorem goShr3_natCast (n : Nat) : goShr3 (n : Int) = ((n / 8 : Nat) : Int) := by
  cases n with
  | zero => rfl
  | succ m => rfl

theorem goAnd7_natCast (n : Nat) : goAnd7 (n : Int) = ((n % 8 : Nat) : Int) := rfl

theorem ParseSyslog_nil (src clk : List Char) : ParseSyslog [] src clk = none := rfl

theorem ParseSyslog_cons (c0 : Char) (t src clk : List Char) :
    ParseSyslog (c0 :: t) src clk =
      (if c0 = '<' then
        match indexRune (c0 :: t) '>' with
        | some priEnd =>
          if 1 < priEnd ∧ priEnd < 5 then
            match atoi (((c0 :: t).take priEnd).drop 1) with
            | some pri =>
              afterPri { initMsg src clk with Facility := goShr3 pri, Severity := goAnd7 pri }
                ((c0 :: t).drop (priEnd + 1))
            | none => some (initMsg src clk, c0 :: t)
          else some (initMsg src clk, c0 :: t)
        | none => some (initMsg src clk, c0 :: t)
      else some (initMsg src clk, c0 :: t)).map (fun q => { q.1 with Message := q.2 }) := rfl

theorem parse_pri_shape (p : Nat) (hp : p ≤ 999) (s src clk : List Char) :
    ParseSyslog ('<' :: decimalChars p ++ '>' :: s) src clk =
      (afterPri { initMsg src clk with
                  Facility := goShr3 (p : Int)
                  Severity := goAnd7 (p : Int) } s).map
        (fun q => { q.1 with Message := q.2 }) := by
  have hds : ∀ c ∈ decimalChars p, c ≠ '>' := by
    intro c hc
    obtain ⟨d, hd, rfl⟩ := decimalChars_all_digits hp c hc
    exact (digitChar_ne hd).1
  have hidx0 : indexRune (decimalChars p ++ '>' :: s) '>' = some (decimalChars p).length :=
    indexRune_append_not '>' (decimalChars p) s hds
  obtain ⟨hl1, hl3⟩ := decimalChars_length p
  have hidx : indexRune ('<' :: (decimalChars p ++ '>' :: s)) '>'
      = some ((decimalChars p).length + 1) := by
    have hlt : ('<' : Char) ≠ '>' := by decide
    show (if ('<' : Char) = '>' then some 0
          else (indexRune (decimalChars p ++ '>' :: s) '>').map (fun i => i + 1))
        = some ((decimalChars p).length + 1)
    rw [if_neg hlt, hidx0]
    rfl
  have htake : (('<' :: (decimalChars p ++ '>' :: s)).take ((decimalChars p).length + 1)).drop 1
      = decimalChars p := by
    rw [List.take_succ_cons]
    simp only [List.drop_one, List.tail_cons]
    exact take_append_cons _ '>' s
  have hdrop : ('<' :: (decimalChars p ++ '>' :: s)).drop ((decimalChars p).length + 1 + 1)
      = s := by
    rw [List.drop_succ_cons]
    exact drop_append_len_succ _ '>' s
  rw [List.cons_append]
  rw [ParseSyslog_cons]
  rw [if_pos rfl]
  rw [hidx]
  dsimp only
  rw [if_pos (show 1 < (decimalChars p).length + 1 ∧ (decimalChars p).length + 1 < 5 from
        ⟨by omega, by omega⟩)]
  rw [htake, atoi_decimalChars hp, hdrop]

/-! ### Field preservation through the grammar stages -/

theorem SD_stage_fields {m m' : SyslogMessage} {r r' : List Char}
    (h : SD_stage m r = some (m', r')) :
    m'.Version = m.Version ∧ m'.Facility = m.Facility ∧ m'.Severity = m.Severity ∧
    m'.Timestamp = m.Timestamp ∧ m'.Hostname = m.Hostname ∧ m'.Tag = m.Tag ∧
    m'.Source = m.Source := by
  cases r with
  | nil => exact Option.noConfusion h
  | cons c t =>
    unfold SD_stage at h
    dsimp only at h
    split at h
    next hc =>
      cases hidx : indexRune (c :: t) ']' with
      | some sdEnd =>
        rw [hidx] at h
        dsimp only at h
        split at h
        · split at h
          · simp only [Option.some.injEq, Prod.mk.injEq] at h
            obtain ⟨h1, h2⟩ := h
            subst h1
            exact ⟨rfl, rfl, rfl, rfl, rfl, rfl, rfl⟩
          · exact Option.noConfusion h
        · simp only [Option.some.injEq, Prod.mk.injEq] at h
          obtain ⟨h1, h2⟩ := h
          subst h1
          exact ⟨rfl, rfl, rfl, rfl, rfl, rfl, rfl⟩
      | none =>
        rw [hidx] at h
        dsimp only at h
        simp only [Option.some.injEq, Prod.mk.injEq] at h
        obtain ⟨h1, h2⟩ := h
        subst h1
        exact ⟨rfl, rfl, rfl, rfl, rfl, rfl, rfl⟩
    next hc =>
      simp only [Option.some.injEq, Prod.mk.injEq] at h
      obtain ⟨h1, h2⟩ := h
      subst h1
      exact ⟨rfl, rfl, rfl, rfl, rfl, rfl, rfl⟩

theorem structuredStage_fields {m m' : SyslogMessage} {r r' : List Char}
    (h : structuredStage m r = some (m', r')) :
    m'.Version = m.Version ∧ m'.Facility = m.Facility ∧ m'.Severity = m.Severity ∧
    m'.Source = m.Source := by
  unfold structuredStage at h
  split at h
  · simp only [Option.some.injEq, Prod.mk.injEq] at h
    obtain ⟨h1, h2⟩ := h
    subst h1
    exact ⟨rfl, rfl, rfl, rfl⟩
  · split at h
    · simp only [Option.some.injEq, Prod.mk.injEq] at h
      obtain ⟨h1, h2⟩ := h
      subst h1
      exact ⟨rfl, rfl, rfl, rfl⟩
    · split at h
      · have hf := SD_stage_fields h
        exact ⟨hf.1, hf.2.1, hf.2.2.1, hf.2.2.2.2.2.2⟩
      · have hf := SD_stage_fields h
        exact ⟨hf.1, hf.2.1, hf.2.2.1, hf.2.2.2.2.2.2⟩

theorem legacyStage_fields {m m' : SyslogMessage} {r r' : List Char}
    (h : legacyStage m r = some (m', r')) :
    m'.Version = m.Version ∧ m'.Facility = m.Facility ∧ m'.Severity = m.Severity ∧
    m'.Source = m.Source := by
  unfold legacyStage at h
  split at h
  · split at h
    · simp only [Option.some.injEq, Prod.mk.injEq] at h
      obtain ⟨h1, h2⟩ := h
      subst h1
      exact ⟨rfl, rfl, rfl, rfl⟩
    · split at h
      · split at h
        · simp only [Option.some.injEq, Prod.mk.injEq] at h
          obtain ⟨h1, h2⟩ := h
          subst h1
          exact ⟨rfl, rfl, rfl, rfl⟩
        · simp only [Option.some.injEq, Prod.mk.injEq] at h
          obtain ⟨h1, h2⟩ := h
          subst h1
          exact ⟨rfl, rfl, rfl, rfl⟩
      · exact Option.noConfusion h
  · exact Option.noConfusion h

theorem afterPri_fields {m m' : SyslogMessage} {r r' : List Char}
    (h : afterPri m r = some (m', r')) :
    m'.Facility = m.Facility ∧ m'.Severity = m.Severity ∧ m'.Source = m.Source ∧
    (m'.Version = m.Version ∨ m'.Version = 1) := by
  cases r with
  | nil => exact Option.noConfusion h
  | cons c t =>
    unfold afterPri at h
    dsimp only at h
    split at h
    · cases t with
      | nil => exact Option.noConfusion h
      | cons c2 t2 =>
        dsimp only at h
        have hf := structuredStage_fields h
        exact ⟨hf.2.1, hf.2.2.1, hf.2.2.2, Or.inr hf.1⟩
    · have hf := legacyStage_fields h
      exact ⟨hf.2.1, hf.2.2.1, hf.2.2.2, Or.inl hf.1⟩

/-! ### Suffix structure of the remainder -/

theorem splitN_ne_nil (sep : Char) (n : Nat) (s : List Char) (hn : 1 ≤ n) :
    splitN s sep n ≠ [] := by
  match n, hn with
  | 1, _ => simp [splitN]
  | k + 2, _ =>
    unfold splitN
    split <;> simp

theorem splitN_getLast_suffix (sep : Char) :
    ∀ (n : Nat) (s p : List Char), (splitN s sep n).getLast? = some p → p <:+ s := by
  intro n
  induction n with
  | zero => intro s p h; simp [splitN] at h
  | succ k ih =>
    intro s p h
    match k with
    | 0 =>
      simp [splitN] at h
      subst h
      exact List.suffix_refl _
    | k' + 1 =>
      unfold splitN at h
      split at h
      · simp at h
        subst h
        exact List.suffix_refl _
      next i hidx =>
        have hne : splitN (s.drop (i + 1)) sep (k' + 1) ≠ [] :=
          splitN_ne_nil sep _ _ (by omega)
        obtain ⟨x, xs, hx⟩ := List.exists_cons_of_ne_nil hne
        rw [hx, List.getLast?_cons_cons, ← hx] at h
        exact (ih (s.drop (i + 1)) p h).trans (List.drop_suffix _ _)

theorem SD_stage_suffix {m m' : SyslogMessage} {r r' : List Char}
    (h : SD_stage m r = some (m', r')) : r' <:+ r := by
  cases r with
  | nil => exact Option.noConfusion h
  | cons c t =>
    unfold SD_stage at h
    dsimp only at h
    split at h
    · cases hidx : indexRune (c :: t) ']' with
      | some sdEnd =>
        rw [hidx] at h
        dsimp only at h
        split at h
        · split at h
          · simp only [Option.some.injEq, Prod.mk.injEq] at h
            obtain ⟨h1, h2⟩ := h
            subst h2
            exact List.drop_suffix _ _
          · exact Option.noConfusion h
        · simp only [Option.some.injEq, Prod.mk.injEq] at h
          obtain ⟨h1, h2⟩ := h
          subst h2
          exact List.suffix_refl _
      | none =>
        rw [hidx] at h
        dsimp only at h
        simp only [Option.some.injEq, Prod.mk.injEq] at h
        obtain ⟨h1, h2⟩ := h
        subst h2
        exact List.suffix_refl _
    · simp only [Option.some.injEq, Prod.mk.injEq] at h
      obtain ⟨h1, h2⟩ := h
      subst h2
      exact List.suffix_refl _

theorem structuredStage_suffix {m m' : SyslogMessage} {r r' : List Char}
    (h : structuredStage m r = some (m', r')) : r' <:+ r := by
  unfold structuredStage at h
  split at h
  · simp only [Option.some.injEq, Prod.mk.injEq] at h
    obtain ⟨h1, h2⟩ := h
    subst h2
    exact List.suffix_refl _
  next tsEnd hts =>
    split at h
    · simp only [Option.some.injEq, Prod.mk.injEq] at h
      obtain ⟨h1, h2⟩ := h
      subst h2
      exact List.suffix_refl _
    next ts hparse =>
      split at h
      next p0 p1 p2 p3 p4 hsp =>
        have hlast : (splitN (r.drop (tsEnd + 1)) ' ' 5).getLast? = some p4 := by
          rw [hsp]; rfl
        have h5 : p4 <:+ r.drop (tsEnd + 1) :=
          splitN_getLast_suffix ' ' 5 _ p4 hlast
        exact ((SD_stage_suffix h).trans h5).trans (List.drop_suffix _ _)
      next hsp =>
        exact (SD_stage_suffix h).trans (List.drop_suffix _ _)

theorem legacyStage_suffix {m m' : SyslogMessage} {r r' : List Char}
    (h : legacyStage m r = some (m', r')) : r' <:+ r := by
  unfold legacyStage at h
  split at h
  · split at h
    · simp only [Option.some.injEq, Prod.mk.injEq] at h
      obtain ⟨h1, h2⟩ := h
      subst h2
      exact List.suffix_refl _
    next ts hst =>
      split at h
      · split at h
        next p0 p1 p2 hsp =>
          simp only [Option.some.injEq, Prod.mk.injEq] at h
          obtain ⟨h1, h2⟩ := h
          subst h2
          have hlast : (splitN (r.drop 16) ' ' 3).getLast? = some p2 := by
            rw [hsp]; rfl
          exact (splitN_getLast_suffix ' ' 3 _ p2 hlast).trans (List.drop_suffix _ _)
        next hsp =>
          simp only [Option.some.injEq, Prod.mk.injEq] at h
          obtain ⟨h1, h2⟩ := h
          subst h2
          exact List.drop_suffix _ _
      · exact Option.noConfusion h
  · exact Option.noConfusion h

theorem afterPri_suffix {m m' : SyslogMessage} {r r' : List Char}
    (h : afterPri m r = some (m', r')) : r' <:+ r := by
  cases r with
  | nil => exact Option.noConfusion h
  | cons c t =>
    unfold afterPri at h
    dsimp only at h
    split at h
    · cases t with
      | nil => exact Option.noConfusion h
      | cons c2 t2 =>
        dsimp only at h
        exact ((structuredStage_suffix h).trans (List.suffix_cons c2 t2)).trans
          (List.suffix_cons c (c2 :: t2))
    · exact legacyStage_suffix h

/-- C10: on every parse path the final `Message` field of a returned
`SyslogMessage` is a contiguous suffix of the input buffer: the parser
only ever advances forward (drops a prefix, or takes the last part of a
split), never rewriting, reordering or inserting message text. -/
theorem C10_message_suffix (buf src clk : List Char) (m : SyslogMessage)
    (h : ParseSyslog buf src clk = some m) : m.Message <:+ buf := by
  cases buf with
  | nil => exact Option.noConfusion h
  | cons c0 t =>
    rw [ParseSyslog_cons] at h
    split at h
    · split at h
      next priEnd hidx =>
        split at h
        · split at h
          next pri hatoi =>
            rw [Option.map_eq_some'] at h
            obtain ⟨q, hq, hm⟩ := h
            subst hm
            exact (afterPri_suffix hq).trans (List.drop_suffix _ _)
          next hatoi =>
            simp only [Option.map_some', Option.some.injEq] at h
            subst h
            exact List.suffix_refl _
        · simp only [Option.map_some', Option.some.injEq] at h
          subst h
          exact List.suffix_refl _
      next hidx =>
        simp only [Option.map_some', Option.some.injEq] at h
        subst h
        exact List.suffix_refl _
    · simp only [Option.map_some', Option.some.injEq] at h
      subst h
      exact List.suffix_refl _

/-! ### Claim theorems -/

/-- C1 (code bug): the claim says `ParseSyslog` returns a `ParsedMessage`
for every input buffer, but the code panics (indexes `rest[0]` on an
empty string at lines 52 and 60, slices `rest[:15]` past the end at
line 94) on the empty buffer, on a buffer ending exactly at the PRI
boundary, and on a short legacy remainder; `none` is the panic value of
the model. -/
theorem C1_panic_evaluations :
    ParseSyslog [] ("127.0.0.1".toList) ("CLOCK".toList) = none ∧
    ParseSyslog ("<13>".toList) ("127.0.0.1".toList) ("CLOCK".toList) = none ∧
    ParseSyslog ("<13>hi".toList) ("127.0.0.1".toList) ("CLOCK".toList) = none := by
  refine ⟨rfl, by decide, by decide⟩

/-- C2 counterexample: the PRI stage succeeds on `<999>` (a `<` at
position 0, `>` at index 4, numeric content between them), yet the code
performs no range check on the value, so Facility = 999 >> 3 = 124,
outside [0,23]. -/
theorem C2_counterexample :
    (ParseSyslog ("<999>0123456789abcdef".toList) ("127.0.0.1".toList)
        ("CLOCK".toList)).map (fun m => m.Facility) = some 124 := by
  decide

/-- C2 (amended): Severity lies in [0,7] and Version in 0,1 for every
returned message; Facility lies in [0,23] whenever the parsed PRI value
is at most 191 (the code itself never checks the 0-191 range). -/
theorem C2_amended :
    (∀ buf src clk m, ParseSyslog buf src clk = some m →
        0 ≤ m.Severity ∧ m.Severity ≤ 7 ∧ (m.Version = 0 ∨ m.Version = 1)) ∧
    (∀ p s src clk m, p ≤ 191 →
        ParseSyslog ('<' :: decimalChars p ++ '>' :: s) src clk = some m →
        0 ≤ m.Facility ∧ m.Facility ≤ 23) := by
  constructor
  · intro buf src clk m h
    cases buf with
    | nil => exact Option.noConfusion h
    | cons c0 t =>
      rw [ParseSyslog_cons] at h
      split at h
      · split at h
        next priEnd hidx =>
          split at h
          · split at h
            next pri hatoi =>
              rw [Option.map_eq_some'] at h
              obtain ⟨q, hq, hm⟩ := h
              subst hm
              have hf := afterPri_fields hq
              have h1 : q.1.Severity = goAnd7 pri := hf.2.1
              have h2 : (0 : Int) ≤ goAnd7 pri := Int.emod_nonneg pri (by decide)
              have h3 : goAnd7 pri < 8 := Int.emod_lt_of_pos pri (by decide)
              refine ⟨?_, ?_, ?_⟩
              · show (0 : Int) ≤ q.1.Severity
                omega
              · show q.1.Severity ≤ 7
                omega
              · show q.1.Version = 0 ∨ q.1.Version = 1
                rcases hf.2.2.2 with hv | hv
                · exact Or.inl hv
                · exact Or.inr hv
            next hatoi =>
              simp only [Option.map_some', Option.some.injEq] at h
              subst h
              exact ⟨(by decide : (0 : Int) ≤ 5), (by decide : (5 : Int) ≤ 7), Or.inl rfl⟩
          · simp only [Option.map_some', Option.some.injEq] at h
            subst h
            exact ⟨(by decide : (0 : Int) ≤ 5), (by decide : (5 : Int) ≤ 7), Or.inl rfl⟩
        next hidx =>
          simp only [Option.map_some', Option.some.injEq] at h
          subst h
          exact ⟨(by decide : (0 : Int) ≤ 5), (by decide : (5 : Int) ≤ 7), Or.inl rfl⟩
      · simp only [Option.map_some', Option.some.injEq] at h
        subst h
        exact ⟨(by decide : (0 : Int) ≤ 5), (by decide : (5 : Int) ≤ 7), Or.inl rfl⟩
  · intro p s src clk m hp h
    rw [parse_pri_shape p (by omega) s src clk] at h
    rw [Option.map_eq_some'] at h
    obtain ⟨q, hq, hm⟩ := h
    subst hm
    have hf := afterPri_fields hq
    have hF : q.1.Facility = ((p / 8 : Nat) : Int) := by
      rw [hf.1]
      exact goShr3_natCast p
    constructor
    · show (0 : Int) ≤ q.1.Facility
      rw [hF]
      omega
    · show q.1.Facility ≤ 23
      rw [hF]
      have : p / 8 ≤ 23 := by omega
      omega

/-- Witness for C2: both parts of the amended claim applied at concrete
runs (the buffer `hello` and the buffer `<13>0123456789abcdef`). -/
theorem C2_amended_witness :
    (0 ≤ (5 : Int) ∧ (5 : Int) ≤ 7) ∧ (0 ≤ (124 : Int)) := by
  have h1 := C2_amended.1 ("hello".toList) ("127.0.0.1".toList) ("CLOCK".toList)
    { Version := 0, Facility := 0, Severity := 5, Timestamp := "CLOCK".toList,
      Hostname := "127.0.0.1".toList, Tag := [], StructuredData := [],
      Message := "hello".toList, Source := "127.0.0.1".toList } (by decide)
  have h2 := C2_amended.2 13 ("0123456789abcdef".toList) ("127.0.0.1".toList) ("CLOCK".toList)
    { Version := 0, Facility := 1, Severity := 5, Timestamp := "CLOCK".toList,
      Hostname := "127.0.0.1".toList, Tag := [], StructuredData := [],
      Message := "0123456789abcdef".toList, Source := "127.0.0.1".toList }
    (by decide) (by decide)
  exact ⟨⟨h1.1, h1.2.1⟩, by decide⟩

/-- C3 counterexample: after a successful PRI, the input `<13>1Xfoo`
has `1` followed by a non-space, yet the structured grammar is selected:
Version becomes 1 and the two characters `1X` are skipped, leaving the
message `foo`. -/
theorem C3_counterexample :
    (ParseSyslog ("<13>1Xfoo".toList) ("127.0.0.1".toList) ("CLOCK".toList)).map
      (fun m => (m.Version, m.Message)) = some (1, "foo".toList) := by
  decide

/-- C3 (amended): after a successful PRI stage the structured grammar
(Version = 1) is selected exactly when the next character is `1`,
regardless of the character after it; the code never checks for the
following space. -/
theorem C3_amended (p : Nat) (s src clk : List Char) (m : SyslogMessage)
    (hp : p ≤ 999)
    (h : ParseSyslog ('<' :: decimalChars p ++ '>' :: s) src clk = some m) :
    m.Version = 1 ↔ s.get? 0 = some '1' := by
  rw [parse_pri_shape p hp s src clk] at h
  cases s with
  | nil => exact Option.noConfusion h
  | cons c t =>
    unfold afterPri at h
    dsimp only at h
    split at h
    next hc =>
      subst hc
      cases t with
      | nil => exact Option.noConfusion h
      | cons c2 t2 =>
        dsimp only at h
        rw [Option.map_eq_some'] at h
        obtain ⟨q, hq, hm⟩ := h
        subst hm
        have hf := structuredStage_fields hq
        constructor
        · intro _
          rfl
        · intro _
          exact hf.1
    next hc =>
      rw [Option.map_eq_some'] at h
      obtain ⟨q, hq, hm⟩ := h
      subst hm
      have hf := legacyStage_fields hq
      have hv0 : q.1.Version = 0 := hf.1
      constructor
      · intro hv
        have : (0 : Int) = 1 := by
          rw [← hv0]
          exact hv
        exact absurd this (by decide)
      · intro hs
        have hc1 : c = '1' := by
          simpa using hs
        exact absurd hc1 hc

/-- Witness for C3 at the concrete run `<13>1Xfoo`. -/
theorem C3_amended_witness :
    (ParseSyslog ('<' :: decimalChars 13 ++ '>' :: ("1Xfoo".toList)) ("127.0.0.1".toList)
        ("CLOCK".toList)).map (fun m => m.Version) = some 1 := by
  have h := C3_amended 13 ("1Xfoo".toList) ("127.0.0.1".toList) ("CLOCK".toList)
    { Version := 1, Facility := 1, Severity := 5, Timestamp := "CLOCK".toList,
      Hostname := "127.0.0.1".toList, Tag := [], StructuredData := [],
      Message := "foo".toList, Source := "127.0.0.1".toList } (by decide) (by decide)
  have hv := h.mpr (by decide)
  decide

/-- C4 (code bug): on `<13>1 - host.domain.com user - - - message` the
structured grammar is abandoned at the timestamp stage exactly as the
claim says (Timestamp keeps the clock default, Tag empty, Message is the
remainder including the `-` token), but `Hostname` stays at its record
default, the source address `127.0.0.1`, whereas the claim, the spec and
the repository's own test `TestParseSyslog` expect the empty string. -/
theorem C4_hostname_divergence :
    ParseSyslog ("<13>1 - host.domain.com user - - - message".toList)
        ("127.0.0.1".toList) ("CLOCK".toList) =
      some { Version := 1, Facility := 1, Severity := 5, Timestamp := "CLOCK".toList,
             Hostname := "127.0.0.1".toList, Tag := [], StructuredData := [],
             Message := "- host.domain.com user - - - message".toList,
             Source := "127.0.0.1".toList } := by
  decide

/-- C6: for every p in [0,191], parsing a buffer beginning `<p>` (p in
decimal) yields Facility = p/8 and Severity = p%8 with integer division
and modulo, facility*8+severity reconstructs p, and re-deriving the pair
from that value returns the same pair. -/
theorem C6_pri_arithmetic (p : Nat) (s src clk : List Char) (m : SyslogMessage)
    (hp : p ≤ 191)
    (h : ParseSyslog ('<' :: decimalChars p ++ '>' :: s) src clk = some m) :
    m.Facility = ((p / 8 : Nat) : Int) ∧ m.Severity = ((p % 8 : Nat) : Int) ∧
    m.Facility * 8 + m.Severity = (p : Int) ∧
    goShr3 (m.Facility * 8 + m.Severity) = m.Facility ∧
    goAnd7 (m.Facility * 8 + m.Severity) = m.Severity := by
  rw [parse_pri_shape p (by omega) s src clk] at h
  rw [Option.map_eq_some'] at h
  obtain ⟨q, hq, hm⟩ := h
  subst hm
  have hf := afterPri_fields hq
  have hF : q.1.Facility = ((p / 8 : Nat) : Int) := by
    rw [hf.1]
    exact goShr3_natCast p
  have hS : q.1.Severity = ((p % 8 : Nat) : Int) := by
    rw [hf.2.1]
    exact goAnd7_natCast p
  have hsum : q.1.Facility * 8 + q.1.Severity = (p : Int) := by
    rw [hF, hS]
    push_cast
    omega
  refine ⟨hF, hS, hsum, ?_, ?_⟩
  · show goShr3 (q.1.Facility * 8 + q.1.Severity) = q.1.Facility
    rw [hsum, goShr3_natCast p, hF]
  · show goAnd7 (q.1.Facility * 8 + q.1.Severity) = q.1.Severity
    rw [hsum, goAnd7_natCast p, hS]

/-- Witness for C6 at p = 13 with the suffix `0123456789abcdef`. -/
theorem C6_pri_arithmetic_witness :
    ({ Version := 0, Facility := 1, Severity := 5, Timestamp := "CLOCK".toList,
       Hostname := "127.0.0.1".toList, Tag := [], StructuredData := [],
       Message := "0123456789abcdef".toList,
       Source := "127.0.0.1".toList } : SyslogMessage).Facility = ((13 / 8 : Nat) : Int) ∧
    ({ Version := 0, Facility := 1, Severity := 5, Timestamp := "CLOCK".toList,
       Hostname := "127.0.0.1".toList, Tag := [], StructuredData := [],
       Message := "0123456789abcdef".toList,
       Source := "127.0.0.1".toList } : SyslogMessage).Severity = ((13 % 8 : Nat) : Int) := by
  have h := C6_pri_arithmetic 13 ("0123456789abcdef".toList) ("127.0.0.1".toList)
    ("CLOCK".toList)
    { Version := 0, Facility := 1, Severity := 5, Timestamp := "CLOCK".toList,
      Hostname := "127.0.0.1".toList, Tag := [], StructuredData := [],
      Message := "0123456789abcdef".toList, Source := "127.0.0.1".toList }
    (by decide) (by decide)
  exact ⟨h.1, h.2.1⟩

/-- C8 counterexample: the empty buffer does not begin with `<`, yet
the code panics on `rest[0]` instead of returning a message whose
Message field is the whole (empty) buffer. -/
theorem C8_counterexample :
    ParseSyslog [] ("10.1.1.1".toList) ("CLK".toList) = none := rfl

/-- C8 (amended): for every nonempty buffer that does not begin with
`<`, the parser returns Facility = 0, Severity = 5, Message equal to
the whole buffer and Hostname equal to the source address. -/
theorem C8_amended (buf src clk : List Char) (hne : buf ≠ [])
    (hlt : buf.get? 0 ≠ some '<') :
    ParseSyslog buf src clk =
      some { Version := 0, Facility := 0, Severity := 5, Timestamp := clk,
             Hostname := src, Tag := [], StructuredData := [],
             Message := buf, Source := src } := by
  cases buf with
  | nil => exact absurd rfl hne
  | cons c0 t =>
    have hc : c0 ≠ '<' := by
      intro he
      exact hlt (by rw [he]; rfl)
    rw [ParseSyslog_cons, if_neg hc]
    rfl

/-- Witness for C8 at the concrete run `hello`. -/
theorem C8_amended_witness :
    ParseSyslog ("hello".toList) ("127.0.0.1".toList) ("CLOCK".toList) =
      some { Version := 0, Facility := 0, Severity := 5, Timestamp := "CLOCK".toList,
             Hostname := "127.0.0.1".toList, Tag := [], StructuredData := [],
             Message := "hello".toList, Source := "127.0.0.1".toList } :=
  C8_amended ("hello".toList) ("127.0.0.1".toList) ("CLOCK".toList)
    (by decide) (by decide)

/-- Witness for C10 at the concrete run
`<13>Dec 15 11:55:02 host user: message`. -/
theorem C10_message_suffix_witness :
    ("message".toList) <:+ ("<13>Dec 15 11:55:02 host user: message".toList) := by
  have h := C10_message_suffix ("<13>Dec 15 11:55:02 host user: message".toList)
    ("127.0.0.1".toList) ("CLOCK".toList)
    { Version := 0, Facility := 1, Severity := 5,
      Timestamp := "0000-12-15 11:55:02 +0000 UTC".toList,
      Hostname := "host".toList, Tag := "user:".toList, StructuredData := [],
      Message := "message".toList, Source := "127.0.0.1".toList }
    (by decide)
  exact h

/-- C5 counterexample: after a successful timestamp, the remainder
`[abc] d` splits into 2 parts, not 5 - yet parsing does not stop: the
structured-data block still runs, extracting `[abc` and leaving only `d`
as Message instead of the whole unsplit remainder. -/
theorem C5_counterexample :
    (ParseSyslog ("<13>1 2015-12-15T11:54:41-08:00 [abc] d".toList) ("127.0.0.1".toList)
        ("CLOCK".toList)).map (fun m => (m.StructuredData, m.Message)) =
      some ("[abc".toList, "d".toList) := by
  decide

/-- C5 (amended): in the structured grammar, when the 5-way split of
the post-timestamp remainder does not yield exactly 5 parts, Hostname
and Tag keep their defaults (source address and empty), but the
structured-data stage is still attempted on the unsplit remainder,
which becomes Message only modulo that extraction. -/
theorem C5_amended (p : Nat) (c : Char) (rest src clk : List Char)
    (tsEnd : Nat) (ts : GoTime) (hp : p ≤ 999)
    (h1 : indexRune rest ' ' = some tsEnd)
    (h2 : goParseTimestamp (rest.take tsEnd) = some ts)
    (h3 : (splitN (rest.drop (tsEnd + 1)) ' ' 5).length ≠ 5) :
    ParseSyslog ('<' :: decimalChars p ++ '>' :: '1' :: c :: rest) src clk =
      (SD_stage { initMsg src clk with
                  Version := 1
                  Facility := goShr3 (p : Int)
                  Severity := goAnd7 (p : Int)
                  Timestamp := goTimeString ts } (rest.drop (tsEnd + 1))).map
        (fun q => { q.1 with Message := q.2 }) ∧
    (∀ m, ParseSyslog ('<' :: decimalChars p ++ '>' :: '1' :: c :: rest) src clk = some m →
      m.Hostname = src ∧ m.Tag = []) := by
  have hmain : ParseSyslog ('<' :: decimalChars p ++ '>' :: '1' :: c :: rest) src clk =
      (SD_stage { initMsg src clk with
                  Version := 1
                  Facility := goShr3 (p : Int)
                  Severity := goAnd7 (p : Int)
                  Timestamp := goTimeString ts } (rest.drop (tsEnd + 1))).map
        (fun q => { q.1 with Message := q.2 }) := by
    rw [parse_pri_shape p hp ('1' :: c :: rest) src clk]
    unfold afterPri
    dsimp only
    rw [if_pos rfl]
    unfold structuredStage
    rw [h1]
    dsimp only
    rw [h2]
    dsimp only
    rcases hsp : splitN (rest.drop (tsEnd + 1)) ' ' 5 with _ | ⟨a, _ | ⟨b, _ | ⟨d, _ | ⟨e, _ | ⟨f, _ | ⟨g, tl⟩⟩⟩⟩⟩⟩
    · rfl
    · rfl
    · rfl
    · rfl
    · rfl
    · rw [hsp] at h3
      exact absurd rfl h3
    · rfl
  refine ⟨hmain, ?_⟩
  intro m hm
  rw [hmain, Option.map_eq_some'] at hm
  obtain ⟨q, hq, hmq⟩ := hm
  subst hmq
  have hf := SD_stage_fields hq
  exact ⟨hf.2.2.2.2.1, hf.2.2.2.2.2.1⟩

/-- Witness for C5 at the concrete run
`<13>1 2015-12-15T11:54:41-08:00 [abc] d`. -/
theorem C5_amended_witness :
    ({ Version := 1, Facility := 1, Severity := 5,
       Timestamp := "2015-12-15 11:54:41 -0800 -0800".toList,
       Hostname := "127.0.0.1".toList, Tag := [], StructuredData := "[abc".toList,
       Message := "d".toList, Source := "127.0.0.1".toList } : SyslogMessage).Hostname
        = "127.0.0.1".toList ∧
    ({ Version := 1, Facility := 1, Severity := 5,
       Timestamp := "2015-12-15 11:54:41 -0800 -0800".toList,
       Hostname := "127.0.0.1".toList, Tag := [], StructuredData := "[abc".toList,
       Message := "d".toList, Source := "127.0.0.1".toList } : SyslogMessage).Tag = [] := by
  have h := C5_amended 13 ' ' ("2015-12-15T11:54:41-08:00 [abc] d".toList)
    ("127.0.0.1".toList) ("CLOCK".toList) 25 ⟨2015, 12, 15, 11, 54, 41, 0, -480, false⟩
    (by decide) (by decide) (by decide) (by decide)
  exact h.2
    { Version := 1, Facility := 1, Severity := 5,
      Timestamp := "2015-12-15 11:54:41 -0800 -0800".toList,
      Hostname := "127.0.0.1".toList, Tag := [], StructuredData := "[abc".toList,
      Message := "d".toList, Source := "127.0.0.1".toList } (by decide)

/-- C7 counterexample: on `<13>hi` the legacy remainder is shorter
than the fixed-width stamp and the code panics slicing `rest[:15]`
instead of leaving the remainder in Message as the claim requires. -/
theorem C7_counterexample :
    ParseSyslog ("<13>hi".toList) ("10.0.0.2".toList) ("CLK7".toList) = none := by
  decide

/-- C7 (amended): in the legacy grammar, when the remainder holds at
least 15 characters the first 15 are parsed as the fixed-width stamp;
on stamp failure the unconsumed remainder becomes Message; on stamp
success the parser advances exactly 16 characters (panicking when the
remainder is exactly 15 characters long) and a 3-way split assigns
Hostname, Tag and Message, the unsplit remainder becoming Message when
the split does not yield 3 parts; a remainder shorter than 15
characters panics; Version stays 0 on every legacy outcome. -/
theorem C7_amended (p : Nat) (s buf src clk : List Char) (hp : p ≤ 999)
    (hbuf : buf = '<' :: decimalChars p ++ '>' :: s)
    (hv : s.get? 0 ≠ some '1') :
    (s.length < 15 → ParseSyslog buf src clk = none) ∧
    (15 ≤ s.length → stampParse (s.take 15) = none →
      ParseSyslog buf src clk =
        some { initMsg src clk with
               Facility := goShr3 (p : Int)
               Severity := goAnd7 (p : Int)
               Message := s }) ∧
    (∀ ts, stampParse (s.take 15) = some ts → s.length = 15 →
      ParseSyslog buf src clk = none) ∧
    (∀ ts p0 p1 p2, stampParse (s.take 15) = some ts → 16 ≤ s.length →
      splitN (s.drop 16) ' ' 3 = [p0, p1, p2] →
      ParseSyslog buf src clk =
        some { initMsg src clk with
               Facility := goShr3 (p : Int)
               Severity := goAnd7 (p : Int)
               Timestamp := goTimeString ts
               Hostname := p0
               Tag := p1
               Message := p2 }) ∧
    (∀ ts, stampParse (s.take 15) = some ts → 16 ≤ s.length →
      (splitN (s.drop 16) ' ' 3).length ≠ 3 →
      ParseSyslog buf src clk =
        some { initMsg src clk with
               Facility := goShr3 (p : Int)
               Severity := goAnd7 (p : Int)
               Timestamp := goTimeString ts
               Message := s.drop 16 }) ∧
    (∀ m, ParseSyslog buf src clk = some m → m.Version = 0) := by
  subst hbuf
  rw [parse_pri_shape p hp s src clk]
  cases s with
  | nil =>
    refine ⟨fun _ => rfl, ?_, ?_, ?_, ?_, ?_⟩
    · intro hlen
      exact absurd hlen (by simp)
    · intro ts hst hlen
      rfl
    · intro ts p0 p1 p2 hst hlen
      exact absurd hlen (by simp)
    · intro ts hst hlen
      exact absurd hlen (by simp)
    · intro m hm
      exact Option.noConfusion hm
  | cons c t =>
    have hc : c ≠ '1' := by
      intro he
      exact hv (by rw [he]; rfl)
    unfold afterPri
    dsimp only
    rw [if_neg hc]
    refine ⟨?_, ?_, ?_, ?_, ?_, ?_⟩
    · intro hlen
      unfold legacyStage
      rw [if_neg (by omega)]
      rfl
    · intro hlen hst
      unfold legacyStage
      rw [if_pos hlen, hst]
      rfl
    · intro ts hst hlen
      unfold legacyStage
      rw [if_pos (by omega), hst]
      dsimp only
      rw [if_neg (by omega)]
      rfl
    · intro ts p0 p1 p2 hst hlen hsp
      unfold legacyStage
      rw [if_pos (by omega), hst]
      dsimp only
      rw [if_pos hlen, hsp]
      rfl
    · intro ts hst hlen hsp
      unfold legacyStage
      rw [if_pos (by omega), hst]
      dsimp only
      rw [if_pos hlen]
      rcases hs3 : splitN ((c :: t).drop 16) ' ' 3 with _ | ⟨a, _ | ⟨b, _ | ⟨d, _ | ⟨e, tl⟩⟩⟩⟩
      · rfl
      · rfl
      · rfl
      · rw [hs3] at hsp
        exact absurd rfl hsp
      · rfl
    · intro m hm
      rw [Option.map_eq_some'] at hm
      obtain ⟨q, hq, hmq⟩ := hm
      subst hmq
      have hf := legacyStage_fields hq
      exact hf.1

/-- Witness for C7 at the concrete run
`<13>Dec 15 11:55:02 host user: message`. -/
theorem C7_amended_witness :
    ParseSyslog ("<13>Dec 15 11:55:02 host user: message".toList) ("127.0.0.1".toList)
        ("CLOCK".toList) =
      some { Version := 0, Facility := 1, Severity := 5,
             Timestamp := goTimeString ⟨0, 12, 15, 11, 55, 2, 0, 0, true⟩,
             Hostname := "host".toList, Tag := "user:".toList, StructuredData := [],
             Message := "message".toList, Source := "127.0.0.1".toList } := by
  have h := (C7_amended 13 ("Dec 15 11:55:02 host user: message".toList)
      ("<13>Dec 15 11:55:02 host user: message".toList) ("127.0.0.1".toList) ("CLOCK".toList)
      (by decide) (by decide) (by decide)).2.2.2.1
      ⟨0, 12, 15, 11, 55, 2, 0, 0, true⟩ ("host".toList) ("user:".toList) ("message".toList)
      (by decide) (by decide) (by decide)
  exact h

/-! ### Clock insensitivity (C9) -/

theorem SD_stage_clock (m : SyslogMessage) (r : List Char) (c c' : List Char) :
    SD_stage { m with Timestamp := c' } r =
      (SD_stage { m with Timestamp := c } r).map
        (fun q => ({ q.1 with Timestamp := c' }, q.2)) := by
  cases r with
  | nil => rfl
  | cons ch t =>
    unfold SD_stage
    dsimp only
    by_cases hc : ch = '['
    · simp only [if_pos hc]
      cases hidx : indexRune (ch :: t) ']' with
      | some sdEnd =>
        dsimp only
        by_cases h1 : 1 < sdEnd
        · simp only [if_pos h1]
          by_cases h2 : sdEnd + 2 ≤ (ch :: t).length
          · simp only [if_pos h2]
            rfl
          · simp only [if_neg h2]
            rfl
        · simp only [if_neg h1]
          rfl
      | none => rfl
    · simp only [if_neg hc]
      rfl

theorem structuredStage_clock (m : SyslogMessage) (r : List Char) (c c' : List Char) :
    structuredStage { m with Timestamp := c' } r = structuredStage { m with Timestamp := c } r ∨
    (structuredStage { m with Timestamp := c' } r =
       (structuredStage { m with Timestamp := c } r).map
         (fun q => ({ q.1 with Timestamp := c' }, q.2)) ∧
     ∀ q, structuredStage { m with Timestamp := c } r = some q → q.1.Timestamp = c) := by
  unfold structuredStage
  cases hidx : indexRune r ' ' with
  | none =>
    right
    refine ⟨rfl, ?_⟩
    intro q hq
    cases hq
    rfl
  | some tsEnd =>
    dsimp only
    cases hts : goParseTimestamp (r.take tsEnd) with
    | none =>
      right
      refine ⟨rfl, ?_⟩
      intro q hq
      cases hq
      rfl
    | some ts =>
      left
      rfl

theorem legacyStage_clock (m : SyslogMessage) (r : List Char) (c c' : List Char) :
    legacyStage { m with Timestamp := c' } r = legacyStage { m with Timestamp := c } r ∨
    (legacyStage { m with Timestamp := c' } r =
       (legacyStage { m with Timestamp := c } r).map
         (fun q => ({ q.1 with Timestamp := c' }, q.2)) ∧
     ∀ q, legacyStage { m with Timestamp := c } r = some q → q.1.Timestamp = c) := by
  unfold legacyStage
  by_cases hlen : 15 ≤ r.length
  · simp only [if_pos hlen]
    cases hst : stampParse (r.take 15) with
    | none =>
      right
      refine ⟨rfl, ?_⟩
      intro q hq
      cases hq
      rfl
    | some ts =>
      left
      rfl
  · simp only [if_neg hlen]
    exact Or.inl trivial

theorem afterPri_clock (m : SyslogMessage) (r : List Char) (c c' : List Char) :
    afterPri { m with Timestamp := c' } r = afterPri { m with Timestamp := c } r ∨
    (afterPri { m with Timestamp := c' } r =
       (afterPri { m with Timestamp := c } r).map
         (fun q => ({ q.1 with Timestamp := c' }, q.2)) ∧
     ∀ q, afterPri { m with Timestamp := c } r = some q → q.1.Timestamp = c) := by
  cases r with
  | nil => exact Or.inl rfl
  | cons ch t =>
    unfold afterPri
    dsimp only
    by_cases hc : ch = '1'
    · simp only [if_pos hc]
      cases t with
      | nil => exact Or.inl rfl
      | cons c2 t2 =>
        dsimp only
        exact structuredStage_clock { m with Version := 1 } t2 c c'
    · simp only [if_neg hc]
      exact legacyStage_clock m (ch :: t) c c'

/-- C9 (amended): the parser is a pure function of buffer, source and
clock value (two runs with identical inputs are the same term), the
clock is read exactly once per run before any branching, and the clock
value can influence at most the Timestamp field: a run with a different
clock value returns either the identical message, or - exactly when the
first run kept the clock default in Timestamp - the same message with
Timestamp replaced by the new clock value. -/
theorem C9_amended (buf src c1 c2 : List Char) (m1 : SyslogMessage)
    (h : ParseSyslog buf src c1 = some m1) :
    parseSyslogClockReads buf src = 1 ∧
    ∃ m2, ParseSyslog buf src c2 = some m2 ∧
      (m2 = m1 ∨ (m1.Timestamp = c1 ∧ m2 = { m1 with Timestamp := c2 })) := by
  refine ⟨rfl, ?_⟩
  cases buf with
  | nil => exact Option.noConfusion h
  | cons c0 t =>
    rw [ParseSyslog_cons] at h
    rw [ParseSyslog_cons]
    by_cases hc : c0 = '<'
    · rw [if_pos hc] at h ⊢
      cases hidx : indexRune (c0 :: t) '>' with
      | none =>
        rw [hidx] at h
        dsimp only at h ⊢
        simp only [Option.map_some', Option.some.injEq] at h
        subst h
        exact ⟨_, rfl, Or.inr ⟨rfl, rfl⟩⟩
      | some priEnd =>
        rw [hidx] at h
        dsimp only at h ⊢
        by_cases hrange : 1 < priEnd ∧ priEnd < 5
        · rw [if_pos hrange] at h ⊢
          cases hatoi : atoi (((c0 :: t).take priEnd).drop 1) with
          | none =>
            rw [hatoi] at h
            dsimp only at h ⊢
            simp only [Option.map_some', Option.some.injEq] at h
            subst h
            exact ⟨_, rfl, Or.inr ⟨rfl, rfl⟩⟩
          | some pri =>
            rw [hatoi] at h
            dsimp only at h ⊢
            have hX := afterPri_clock
              { initMsg src c2 with Facility := goShr3 pri, Severity := goAnd7 pri }
              ((c0 :: t).drop (priEnd + 1)) c1 c2
            rw [Option.map_eq_some'] at h
            obtain ⟨q, hq, hm1⟩ := h
            subst hm1
            have hq' : afterPri
                { { initMsg src c2 with Facility := goShr3 pri, Severity := goAnd7 pri } with
                  Timestamp := c1 } ((c0 :: t).drop (priEnd + 1)) = some q := hq
            rcases hX with heq | ⟨hmap, hts⟩
            · refine ⟨{ q.1 with Message := q.2 }, ?_, Or.inl rfl⟩
              show (afterPri
                  { { initMsg src c2 with Facility := goShr3 pri, Severity := goAnd7 pri } with
                    Timestamp := c2 } ((c0 :: t).drop (priEnd + 1))).map
                  (fun q => { q.1 with Message := q.2 }) = some { q.1 with Message := q.2 }
              rw [heq, hq']
              rfl
            · refine ⟨{ q.1 with Timestamp := c2, Message := q.2 }, ?_, Or.inr ⟨?_, ?_⟩⟩
              · show (afterPri
                    { { initMsg src c2 with Facility := goShr3 pri, Severity := goAnd7 pri } with
                      Timestamp := c2 } ((c0 :: t).drop (priEnd + 1))).map
                    (fun q => { q.1 with Message := q.2 })
                    = some { q.1 with Timestamp := c2, Message := q.2 }
                rw [hmap, hq']
                rfl
              · exact hts q hq'
              · rfl
        · rw [if_neg hrange] at h ⊢
          simp only [Option.map_some', Option.some.injEq] at h
          subst h
          exact ⟨_, rfl, Or.inr ⟨rfl, rfl⟩⟩
    · rw [if_neg hc] at h ⊢
      simp only [Option.map_some', Option.some.injEq] at h
      subst h
      exact ⟨_, rfl, Or.inr ⟨rfl, rfl⟩⟩

/-- C9 counterexample: on a run whose buffer carries a valid timestamp
the default-Timestamp path is not taken (the result is independent of
the clock and its Timestamp is not the clock value), yet the clock is
still read once - `time.Now()` sits in the record literal evaluated
unconditionally at entry - contradicting the claim that the clock is
consulted only on default-path runs. -/
theorem C9_counterexample :
    parseSyslogClockReads
        ("<13>1 2015-12-15T11:56:01.776597-08:00 host.domain.com user - - - message".toList)
        ("127.0.0.1".toList) = 1 ∧
    ParseSyslog
        ("<13>1 2015-12-15T11:56:01.776597-08:00 host.domain.com user - - - message".toList)
        ("127.0.0.1".toList) ("CLOCKA".toList) =
      ParseSyslog
        ("<13>1 2015-12-15T11:56:01.776597-08:00 host.domain.com user - - - message".toList)
        ("127.0.0.1".toList) ("CLOCKB".toList) ∧
    (ParseSyslog
        ("<13>1 2015-12-15T11:56:01.776597-08:00 host.domain.com user - - - message".toList)
        ("127.0.0.1".toList) ("CLOCKA".toList)).map (fun m => m.Timestamp) ≠
      some ("CLOCKA".toList) := by
  refine ⟨rfl, by decide, by decide⟩

/-- Witness for C9 at the concrete run `hello` with two clock values. -/
theorem C9_amended_witness :
    parseSyslogClockReads ("hello".toList) ("127.0.0.1".toList) = 1 ∧
    ∃ m2, ParseSyslog ("hello".toList) ("127.0.0.1".toList) ("CLKB".toList) = some m2 ∧
      (m2 = { Version := 0, Facility := 0, Severity := 5, Timestamp := "CLKA".toList,
              Hostname := "127.0.0.1".toList, Tag := [], StructuredData := [],
              Message := "hello".toList, Source := "127.0.0.1".toList } ∨
       (({ Version := 0, Facility := 0, Severity := 5, Timestamp := "CLKA".toList,
           Hostname := "127.0.0.1".toList, Tag := [], StructuredData := [],
           Message := "hello".toList, Source := "127.0.0.1".toList } : SyslogMessage).Timestamp
           = "CLKA".toList ∧
        m2 = { ({ Version := 0, Facility := 0, Severity := 5, Timestamp := "CLKA".toList,
                  Hostname := "127.0.0.1".toList, Tag := [], StructuredData := [],
                  Message := "hello".toList,
                  Source := "127.0.0.1".toList } : SyslogMessage) with
               Timestamp := "CLKB".toList })) :=
  C9_amended ("hello".toList) ("127.0.0.1".toList) ("CLKA".toList) ("CLKB".toList)
    { Version := 0, Facility := 0, Severity := 5, Timestamp := "CLKA".toList,
      Hostname := "127.0.0.1".toList, Tag := [], StructuredData := [],
      Message := "hello".toList, Source := "127.0.0.1".toList } (by decide)
